import Mathlib

/-!
Shallow embedding of the sigrok UART protocol decoder
(debian/usr/local/share/libsigrokdecode/decoders/uart/pd.py).

The decoder processes raw UART samples into frame events (start bit, data
bits, parity bit, stop bit, error conditions), independently for the RX and
TX lines.  Pure helpers (parity_ok, format_value, get_sample_point,
get_wait_cond) are translated as Lean functions; the per-line frame state
machine is translated as a step function on an explicit LineState record
that also returns the list of emitted outputs.
-/

namespace UART

/-- Parity type option values: ('none', 'odd', 'even', 'zero', 'one'). -/
inductive ParityType
  | none
  | odd
  | even
  | zero
  | one
deriving DecidableEq, Repr

/-- Bit order option values: ('lsb-first', 'msb-first'). -/
inductive BitOrder
  | lsbFirst
  | msbFirst
deriving DecidableEq, Repr

/-- Data format option values: ('ascii', 'dec', 'hex', 'oct', 'bin'). -/
inductive DataFormat
  | ascii
  | dec
  | hex
  | oct
  | bin
deriving DecidableEq, Repr

/-- The five states of the per-line frame automaton (state strings in pd.py). -/
inductive DecState
  | waitForStartBit
  | getStartBit
  | getDataBits
  | getParityBit
  | getStopBits
deriving DecidableEq, Repr

/-- The decoder options (Decoder.options in pd.py), immutable during a run.
Sample values are integers 0/1; baudrate and num_stop_bits are numeric
option values. -/
structure Options where
  baudrate : ℚ
  num_data_bits : ℕ
  parity_type : ParityType
  parity_check : Bool
  num_stop_bits : ℚ
  bit_order : BitOrder
  format : DataFormat
  invert_rx : Bool
  invert_tx : Bool
deriving DecidableEq, Repr

/-- The declared value set of the num_stop_bits option
(pd.py line 101: 'values': (0.0, 0.5, 1.0, 1.5)). -/
def num_stop_bits_values : List ℚ := [0, 1/2, 1, 3/2]

/-- The declared value set of the num_data_bits option
(pd.py line 95: 'values': (5, 6, 7, 8, 9)). -/
def num_data_bits_values : List ℕ := [5, 6, 7, 8, 9]

/-- Little-endian base-b digit expansion with explicit fuel, so that the
definition is structurally recursive and kernel-computable.  With fuel ≥ v
this is the digit list of v (empty for v = 0), mirroring what Python's
number formatting produces digit by digit. -/
def toBaseAux (base : ℕ) : ℕ → ℕ → List ℕ
  | 0, _ => []
  | fuel + 1, v => if v = 0 then [] else v % base :: toBaseAux base fuel (v / base)

/-- Little-endian base-b digits of v (empty list for v = 0). -/
def toBaseDigits (base v : ℕ) : List ℕ :=
  toBaseAux base v v

/-- Python bin(data).count('1'): the number of set bits of data, counted on
the binary digit expansion (pd.py line 63). -/
def countOnes (data : ℕ) : ℕ :=
  (toBaseDigits 2 data).count 1

/-- Specification-side population count, by the standard recurrence
popcount n = n mod 2 + popcount (n / 2). -/
def popCountSpec (n : ℕ) : ℕ :=
  if h : n = 0 then 0 else n % 2 + popCountSpec (n / 2)
decreasing_by exact Nat.div_lt_self (Nat.pos_of_ne_zero h) Nat.one_lt_two

/-- parity_ok from pd.py lines 54-69.  Given a parity type, the value of the
parity bit, the value of the data and the number of data bits, decide
whether parity is correct.  The Python function returns None (falsy) when
parity_type is 'none' (the comment in pd.py states 'none' is not allowed);
this is modelled as false. -/
def parity_ok (parity_type : ParityType) (parity_bit : ℕ) (data : ℕ)
    (num_data_bits : ℕ) : Bool :=
  match parity_type with
  | ParityType.zero => parity_bit == 0
  | ParityType.one => parity_bit == 1
  | ParityType.odd => (countOnes data + parity_bit) % 2 == 1
  | ParityType.even => (countOnes data + parity_bit) % 2 == 0
  | ParityType.none => false

/-- Digit-to-character map for bases up to 16, uppercase letters
(Python format specifiers d/o/X/b produce these characters). -/
def digitChar (d : ℕ) : Char :=
  if d < 10 then Char.ofNat (48 + d) else Char.ofNat (55 + d)

/-- Inverse of digitChar: character to digit value, uppercase hex. -/
def digitVal (c : Char) : ℕ :=
  if 65 ≤ c.toNat then c.toNat - 55 else c.toNat - 48

/-- Base-b numeral of v, most significant digit first, as Python's
"{:d}" / "{:o}" / "{:X}" / "{:b}" produce (value 0 renders as "0"). -/
def natToBase (base v : ℕ) : String :=
  if v = 0 then "0" else String.mk (((toBaseDigits base v).map digitChar).reverse)

/-- Zero-pad a numeral on the left to at least the given width, as the
Python format specification "{:0Nx}" does. -/
def padZero (width : ℕ) (s : String) : String :=
  String.mk (List.replicate (width - s.length) '0') ++ s

/-- Read a string back as a base-b numeral (the inverse formatting rule). -/
def parseBase (base : ℕ) (s : String) : ℕ :=
  s.data.foldl (fun acc c => acc * base + digitVal c) 0

/-- format_value from pd.py lines 272-312: format a data value according to
the configured format and number of data bits.  The trailing
"return None" branch of the Python code is unreachable because the format
option is drawn from the enumerated value set. -/
def format_value (opt : Options) (v : ℕ) : Option String :=
  let bits := opt.num_data_bits
  match opt.format with
  | DataFormat.ascii =>
      if 32 ≤ v ∧ v ≤ 126 then
        some (String.mk [Char.ofNat v])
      else
        some ("[" ++ padZero (if bits ≤ 8 then 2 else 3) (natToBase 16 v) ++ "]")
  | DataFormat.dec => some (natToBase 10 v)
  | DataFormat.hex => some (padZero ((bits + 4 - 1) / 4) (natToBase 16 v))
  | DataFormat.oct => some (padZero ((bits + 3 - 1) / 3) (natToBase 8 v))
  | DataFormat.bin => some (padZero bits (natToBase 2 v))

/-- Structured OUTPUT_PYTHON packets ([ptype, rxtx, pdata] in pd.py). -/
inductive Packet
  | startbit (rxtx : ℕ) (v : ℕ)
  | invalid_startbit (rxtx : ℕ) (v : ℕ)
  | data (rxtx : ℕ) (v : ℕ) (bits : List (ℕ × ℤ × ℤ))
  | paritybit (rxtx : ℕ) (v : ℕ)
  | parity_error (rxtx : ℕ) (expected actual : ℕ)
  | stopbit (rxtx : ℕ) (v : ℕ)
  | invalid_stopbit (rxtx : ℕ) (v : ℕ)
deriving DecidableEq, Repr

/-- One emitted output: structured packet (putp/putpx), annotation
(putg/putx, with its row id and label list), or binary dump (putbin). -/
inductive Out
  | putp (p : Packet)
  | putpx (p : Packet)
  | putg (row : ℕ) (ann : List String)
  | putx (row : ℕ) (ann : List String)
  | putbin (row : ℕ) (bytes : List ℕ)
deriving DecidableEq, Repr

/-- Per-line mutable decoder state (the rxtx-indexed fields of Decoder). -/
structure LineState where
  frame_start : ℤ
  startbit : ℤ
  cur_data_bit : ℕ
  datavalue : ℕ
  paritybit : ℤ
  stopbit1 : ℤ
  startsample : ℤ
  state : DecState
  databits : List (ℕ × ℤ × ℤ)
deriving DecidableEq, Repr

/-- Initial per-line state, from Decoder.reset (pd.py lines 165-176). -/
def reset : LineState :=
  { frame_start := -1
    startbit := -1
    cur_data_bit := 0
    datavalue := 0
    paritybit := -1
    stopbit1 := -1
    startsample := -1
    state := DecState.waitForStartBit
    databits := [] }

/-- The data-bit accumulation step from pd.py lines 233-239: lsb-first
shifts the accumulator right and ORs the new bit into the top position of
the configured width; msb-first shifts left and ORs the bit into
position 0. -/
def data_accum (opt : Options) (acc : ℕ) (signal : ℕ) : ℕ :=
  match opt.bit_order with
  | BitOrder.lsbFirst => (acc >>> 1) ||| (signal <<< (opt.num_data_bits - 1))
  | BitOrder.msbFirst => (acc <<< 1) ||| (signal <<< 0)

/-- Python v.to_bytes(len, byteorder='big'): the fixed-width big-endian
byte list of v. -/
def bigEndianBytes (len v : ℕ) : List ℕ :=
  (List.range len).map fun i => (v >>> (8 * (len - 1 - i))) % 256

/-- wait_for_start_bit (pd.py lines 201-205): record where the start bit
begins and move to GET START BIT. -/
def wait_for_start_bit (samplenum : ℤ) (s : LineState) : LineState × List Out :=
  ({ s with frame_start := samplenum, state := DecState.getStartBit }, [])

/-- get_start_bit (pd.py lines 207-225).  A start bit that is not 0 emits
the INVALID STARTBIT packet and a frame-error annotation and returns the
line to WAIT FOR START BIT; a valid start bit resets the data accumulation
registers and advances to GET DATA BITS. -/
def get_start_bit (rxtx : ℕ) (signal : ℕ) (s : LineState) : LineState × List Out :=
  let s1 := { s with startbit := (signal : ℤ) }
  if s1.startbit ≠ 0 then
    ({ s1 with state := DecState.waitForStartBit },
     [Out.putp (Packet.invalid_startbit rxtx signal),
      Out.putg (rxtx + 10) ["Frame error", "Frame err", "FE"]])
  else
    ({ s1 with cur_data_bit := 0, datavalue := 0, startsample := -1,
               state := DecState.getDataBits },
     [Out.putp (Packet.startbit rxtx signal),
      Out.putg (rxtx + 2) ["Start bit", "Start", "S"]])

/-- get_data_bits (pd.py lines 227-270).  Latch the first data-bit sample
number, fold the sampled bit into the accumulator, log the bit, and on the
final bit emit the DATA packet, the formatted display annotation, the
binary dumps, clear the log and advance to parity or stop reception. -/
def get_data_bits (opt : Options) (bit_width : ℚ) (rxtx : ℕ) (samplenum : ℤ)
    (signal : ℕ) (s : LineState) : LineState × List Out :=
  let s1 := if s.startsample = -1 then { s with startsample := samplenum } else s
  let dv := data_accum opt s1.datavalue signal
  let halfbit : ℤ := ⌊bit_width / 2⌋
  let db := s1.databits ++ [(signal, samplenum - halfbit, samplenum + halfbit)]
  let cur := s1.cur_data_bit + 1
  let s2 := { s1 with datavalue := dv, databits := db, cur_data_bit := cur }
  let out1 : List Out := [Out.putg (rxtx + 12) [natToBase 10 signal]]
  if cur < opt.num_data_bits then
    (s2, out1)
  else
    let bw := (opt.num_data_bits + 7) / 8
    let dataOuts : List Out :=
      [Out.putpx (Packet.data rxtx dv db)] ++
      (match format_value opt dv with
       | Option.some f => [Out.putx rxtx [f]]
       | Option.none => []) ++
      [Out.putbin rxtx (bigEndianBytes bw dv), Out.putbin 2 (bigEndianBytes bw dv)]
    let st := if opt.parity_type = ParityType.none then DecState.getStopBits
              else DecState.getParityBit
    ({ s2 with databits := [], state := st }, out1 ++ dataOuts)

/-- get_parity_bit (pd.py lines 314-326): validate the sampled parity bit
against the accumulated data value, emit PARITYBIT or PARITY ERROR, and
advance to GET STOP BITS either way. -/
def get_parity_bit (opt : Options) (rxtx : ℕ) (signal : ℕ) (s : LineState) :
    LineState × List Out :=
  let s1 := { s with paritybit := (signal : ℤ) }
  let outs :=
    if parity_ok opt.parity_type signal s1.datavalue opt.num_data_bits then
      [Out.putp (Packet.paritybit rxtx signal),
       Out.putg (rxtx + 4) ["Parity bit", "Parity", "P"]]
    else
      [Out.putp (Packet.parity_error rxtx 0 1),
       Out.putg (rxtx + 6) ["Parity error", "Parity err", "PE"]]
  ({ s1 with state := DecState.getStopBits }, outs)

/-- get_stop_bits (pd.py lines 329-341): a stop bit that is not 1 emits
INVALID STOPBIT and a frame-error annotation; the STOPBIT packet and its
annotation are emitted in every case, and the line returns to
WAIT FOR START BIT. -/
def get_stop_bits (rxtx : ℕ) (signal : ℕ) (s : LineState) : LineState × List Out :=
  let s1 := { s with stopbit1 := (signal : ℤ) }
  let errOuts : List Out :=
    if s1.stopbit1 ≠ 1 then
      [Out.putp (Packet.invalid_stopbit rxtx signal),
       Out.putg (rxtx + 10) ["Frame error", "Frame err", "FE"]]
    else []
  ({ s1 with state := DecState.waitForStartBit },
   errOuts ++
   [Out.putp (Packet.stopbit rxtx signal),
    Out.putg (rxtx + 4) ["Stop bit", "Stop", "T"]])

/-- Python `not signal` on a 0/1 sample value. -/
def python_not (signal : ℕ) : ℕ :=
  if signal = 0 then 1 else 0

/-- inspect_sample (pd.py lines 362-377): apply the per-line inversion flag
and dispatch on the line's automaton state. -/
def inspect_sample (opt : Options) (bit_width : ℚ) (rxtx : ℕ) (samplenum : ℤ)
    (signal : ℕ) (inv : Bool) (s : LineState) : LineState × List Out :=
  let sig := if inv then python_not signal else signal
  match s.state with
  | DecState.waitForStartBit => wait_for_start_bit samplenum s
  | DecState.getStartBit => get_start_bit rxtx sig s
  | DecState.getDataBits => get_data_bits opt bit_width rxtx samplenum sig s
  | DecState.getParityBit => get_parity_bit opt rxtx sig s
  | DecState.getStopBits => get_stop_bits rxtx sig s

/-- get_sample_point (pd.py lines 190-199): the fractional sample index of
the midpoint of bit slot bitnum of the current frame. -/
def get_sample_point (bit_width : ℚ) (frame_start : ℤ) (bitnum : ℕ) : ℚ :=
  (frame_start : ℚ) + (bit_width - 1) / 2 + (bitnum : ℚ) * bit_width

/-- A wait condition handed to the host: an edge on this line, or a skip by
a relative number of samples. -/
inductive WaitCond
  | edgeRising
  | edgeFalling
  | skip (n : ℤ)
deriving DecidableEq, Repr

/-- get_wait_cond (pd.py lines 343-360): in WAIT FOR START BIT wait for an
edge (rising when the line is inverted, else falling); in every other state
skip to the rounded-up sample point of the pending bit slot. -/
def get_wait_cond (opt : Options) (bit_width : ℚ) (samplenum : ℤ) (inv : Bool)
    (s : LineState) : WaitCond :=
  match s.state with
  | DecState.waitForStartBit => if inv then WaitCond.edgeRising else WaitCond.edgeFalling
  | st =>
      let bitnum : ℕ :=
        match st with
        | DecState.getStartBit => 0
        | DecState.getDataBits => 1 + s.cur_data_bit
        | DecState.getParityBit => 1 + opt.num_data_bits
        | DecState.getStopBits =>
            1 + opt.num_data_bits +
              (if opt.parity_type = ParityType.none then 0 else 1)
        | DecState.waitForStartBit => 0
      WaitCond.skip (⌈get_sample_point bit_width s.frame_start bitnum⌉ - samplenum)

/-- Feed a list of (samplenum, signal) samples through one line's automaton,
collecting the emitted outputs in order. -/
def run_line (opt : Options) (bit_width : ℚ) (rxtx : ℕ) (inv : Bool) :
    List (ℤ × ℕ) → LineState → LineState × List Out
  | [], s => (s, [])
  | (sn, sig) :: rest, s =>
      let p := inspect_sample opt bit_width rxtx sn sig inv s
      let q := run_line opt bit_width rxtx inv rest p.1
      (q.1, p.2 ++ q.2)

/-- The two fatal startup errors of Decoder.decode. -/
inductive DecodeError
  | samplerateError
  | channelError
deriving DecidableEq, Repr

/-- Python truthiness of `not self.samplerate`: the sample rate is either
unset (None) or zero. -/
def samplerate_missing : Option ℚ → Bool
  | Option.none => true
  | Option.some q => q == 0

/-- Decoder.decode (pd.py lines 379-403): raise SamplerateError when the
sample rate is unset (or zero), raise ChannelError when neither line is
present, otherwise run the wait loop; modelled here as running each present
line over its schedule of delivered samples.  An error result carries no
decoded output. -/
def decode (opt : Options) (samplerate : Option ℚ) (has_rx has_tx : Bool)
    (rx_samples tx_samples : List (ℤ × ℕ)) :
    Except DecodeError (List Out × List Out) :=
  if samplerate_missing samplerate then
    Except.error DecodeError.samplerateError
  else if !has_rx && !has_tx then
    Except.error DecodeError.channelError
  else
    let bw := (samplerate.getD 0) / opt.baudrate
    Except.ok
      ((if has_rx then (run_line opt bw 0 opt.invert_rx rx_samples reset).2 else []),
       (if has_tx then (run_line opt bw 1 opt.invert_tx tx_samples reset).2 else []))

/-- A concrete configuration used to instantiate theorems: the scenario of
the spec (baud 9600, 8n1, lsb-first, hex display, no inversion). -/
def sampleOpt : Options :=
  { baudrate := 9600
    num_data_bits := 8
    parity_type := ParityType.none
    parity_check := true
    num_stop_bits := 1
    bit_order := BitOrder.lsbFirst
    format := DataFormat.hex
    invert_rx := false
    invert_tx := false }

/-- Replace only the parity_check option. -/
def setParityCheck (opt : Options) (b : Bool) : Options :=
  { opt with parity_check := b }

/-- Replace only the num_stop_bits option. -/
def setNumStopBits (opt : Options) (q : ℚ) : Options :=
  { opt with num_stop_bits := q }

/-- The per-line state invariant: the data-bit index never exceeds the
configured data-bit count, and while data bits are being received the index
is strictly below the count and the accumulator fits in the configured
width (for msb-first it even fits in the bits received so far). -/
def Inv (opt : Options) (s : LineState) : Prop :=
  s.cur_data_bit ≤ opt.num_data_bits ∧
  (s.state = DecState.getDataBits →
    s.cur_data_bit < opt.num_data_bits ∧
    s.datavalue < 2 ^ opt.num_data_bits ∧
    (opt.bit_order = BitOrder.msbFirst → s.datavalue < 2 ^ s.cur_data_bit))

/-! Helper lemmas about digit expansions, numeral parsing and printing. -/

/-- Reading the digit list of v back as a base-b numeral recovers v. -/
theorem toBaseAux_foldr (base : ℕ) (hb : 2 ≤ base) :
    ∀ fuel v, v ≤ fuel →
      (toBaseAux base fuel v).foldr (fun d a => a * base + d) 0 = v := by
  intro fuel
  induction fuel with
  | zero =>
      intro v hv
      have hv0 : v = 0 := by omega
      subst hv0; rfl
  | succ fuel ih =>
      intro v hv
      by_cases h0 : v = 0
      · subst h0; simp [toBaseAux]
      · have hdiv : v / base < v := Nat.div_lt_self (Nat.pos_of_ne_zero h0) hb
        have hle : v / base ≤ fuel := by omega
        simp only [toBaseAux, if_neg h0, List.foldr_cons]
        rw [ih (v / base) hle, Nat.mul_comm]
        exact Nat.div_add_mod v base

/-- Every digit produced by toBaseAux is below the base. -/
theorem toBaseAux_digits_lt (base : ℕ) (hb : 0 < base) :
    ∀ fuel v d, d ∈ toBaseAux base fuel v → d < base := by
  intro fuel
  induction fuel with
  | zero => intro v d h; simp [toBaseAux] at h
  | succ fuel ih =>
      intro v d h
      by_cases h0 : v = 0
      · subst h0; simp [toBaseAux] at h
      · simp only [toBaseAux, if_neg h0, List.mem_cons] at h
        rcases h with h | h
        · subst h; exact Nat.mod_lt _ hb
        · exact ih _ _ h

/-- v < base^w gives at most w digits. -/
theorem toBaseAux_length_le (base : ℕ) (hb : 2 ≤ base) :
    ∀ fuel v w, v ≤ fuel → v < base ^ w → (toBaseAux base fuel v).length ≤ w := by
  intro fuel
  induction fuel with
  | zero =>
      intro v w hv _
      have hv0 : v = 0 := by omega
      subst hv0; simp [toBaseAux]
  | succ fuel ih =>
      intro v w hv hvw
      by_cases h0 : v = 0
      · subst h0; simp [toBaseAux]
      · obtain ⟨w', rfl⟩ : ∃ w', w = w' + 1 := by
          rcases w with _ | w'
          · exfalso; simp at hvw; omega
          · exact ⟨w', rfl⟩
        simp only [toBaseAux, if_neg h0, List.length_cons]
        have hdiv : v / base < v := Nat.div_lt_self (Nat.pos_of_ne_zero h0) hb
        have h1 : v / base ≤ fuel := by omega
        have h2 : v / base < base ^ w' := by
          rw [Nat.div_lt_iff_lt_mul (by omega : 0 < base)]
          calc v < base ^ (w' + 1) := hvw
            _ = base ^ w' * base := by ring
        have := ih (v / base) w' h1 h2
        omega

/-- Digit/character round trip for all bases up to 16. -/
theorem digitVal_digitChar {d : ℕ} (h : d < 16) : digitVal (digitChar d) = d := by
  interval_cases d <;> rfl

/-- Leading zero characters do not change the parsed value 0. -/
theorem parse_foldl_zeros (base : ℕ) (k : ℕ) :
    List.foldl (fun acc c => acc * base + digitVal c) 0 (List.replicate k '0') = 0 := by
  induction k with
  | zero => rfl
  | succ k ih =>
      rw [List.replicate_succ, List.foldl_cons]
      have h1 : 0 * base + digitVal '0' = 0 := by simp [digitVal]
      rw [h1]; exact ih

/-- Zero padding does not change the parsed value. -/
theorem parseBase_padZero (base w : ℕ) (s : String) :
    parseBase base (padZero w s) = parseBase base s := by
  show List.foldl _ 0 (String.mk (List.replicate (w - s.length) '0') ++ s).data =
    List.foldl _ 0 s.data
  rw [String.data_append, List.foldl_append]
  have : (String.mk (List.replicate (w - s.length) '0')).data =
      List.replicate (w - s.length) '0' := rfl
  rw [this, parse_foldl_zeros]

/-- Folding the parser over printed digits is folding over the digits. -/
theorem foldr_digitChar (base : ℕ) (hb : base ≤ 16) :
    ∀ (l : List ℕ), (∀ d ∈ l, d < base) →
      List.foldr (fun c a => a * base + digitVal c) 0 (l.map digitChar) =
      List.foldr (fun d a => a * base + d) 0 l := by
  intro l
  induction l with
  | nil => simp
  | cons d t ih =>
      intro h
      simp only [List.map_cons, List.foldr_cons]
      rw [ih (fun x hx => h x (List.mem_cons_of_mem _ hx)),
        digitVal_digitChar (lt_of_lt_of_le (h d (List.mem_cons_self d t)) hb)]

/-- The printed base-b numeral of v parses back to v, for 2 ≤ b ≤ 16. -/
theorem parseBase_natToBase (base v : ℕ) (hb : 2 ≤ base) (hb16 : base ≤ 16) :
    parseBase base (natToBase base v) = v := by
  by_cases h0 : v = 0
  · subst h0
    show List.foldl _ 0 ['0'] = 0
    rw [List.foldl_cons]
    simp [digitVal]
  · show List.foldl _ 0 (natToBase base v).data = v
    rw [show natToBase base v =
      String.mk (((toBaseDigits base v).map digitChar).reverse) from if_neg h0]
    show List.foldl _ 0 (((toBaseDigits base v).map digitChar).reverse) = v
    rw [List.foldl_reverse, foldr_digitChar base hb16 (toBaseDigits base v)
      (fun d hd => toBaseAux_digits_lt base (by omega) v v d hd)]
    exact toBaseAux_foldr base hb v v le_rfl

/-- The full round trip: zero-padded printing then parsing recovers v. -/
theorem parseBase_padZero_natToBase (base v w : ℕ) (hb : 2 ≤ base) (hb16 : base ≤ 16) :
    parseBase base (padZero w (natToBase base v)) = v := by
  rw [parseBase_padZero, parseBase_natToBase base v hb hb16]

/-- Printed numerals of values below base^w have at most w characters. -/
theorem natToBase_length_le (base v w : ℕ) (hb : 2 ≤ base) (hw : 1 ≤ w)
    (h : v < base ^ w) : (natToBase base v).length ≤ w := by
  by_cases h0 : v = 0
  · subst h0
    show (1 : ℕ) ≤ w
    exact hw
  · rw [show natToBase base v =
      String.mk (((toBaseDigits base v).map digitChar).reverse) from if_neg h0]
    show (((toBaseDigits base v).map digitChar).reverse).length ≤ w
    rw [List.length_reverse, List.length_map]
    exact toBaseAux_length_le base hb v v w le_rfl h

/-- Zero padding to a width at least the numeral length gives that width. -/
theorem padZero_length (w : ℕ) (s : String) (h : s.length ≤ w) :
    (padZero w s).length = w := by
  show (String.mk (List.replicate (w - s.length) '0') ++ s).length = w
  rw [String.length_append]
  have h1 : (String.mk (List.replicate (w - s.length) '0')).length = w - s.length := by
    show (List.replicate (w - s.length) '0').length = w - s.length
    exact List.length_replicate _ _
  rw [h1]; omega

/-! Helper lemmas about the bitwise accumulation of data bits. -/

/-- ORing a left-shifted value with a value that fits in the shifted-away
low bits is the same as adding. -/
theorem two_pow_mul_lor_eq_add :
    ∀ (i x y : ℕ), y < 2 ^ i → (x * 2 ^ i) ||| y = x * 2 ^ i + y := by
  intro i
  induction i with
  | zero =>
      intro x y hy
      have hy0 : y = 0 := by omega
      subst hy0; simp
  | succ i ih =>
      intro x y hy
      have hx2 : x * 2 ^ (i + 1) = Nat.bit false (x * 2 ^ i) := by
        rw [Nat.bit_val]
        simp [pow_succ]; ring
      have hy2 : y = Nat.bit (decide (y % 2 = 1)) (y >>> 1) :=
        (Nat.bit_decide_mod_two_eq_one_shiftRight_one y).symm
      rw [hx2]
      conv_lhs => rw [hy2]
      rw [Nat.lor_bit]
      have hdiv : y >>> 1 < 2 ^ i := by
        rw [Nat.shiftRight_one]
        have hp : (2 : ℕ) ^ (i + 1) = 2 * 2 ^ i := by ring
        rw [hp] at hy
        omega
      rw [ih _ _ hdiv, Nat.bit_val]
      have hto : ((false || decide (y % 2 = 1)) : Bool).toNat = y % 2 := by
        rcases Nat.mod_two_eq_zero_or_one y with h | h <;> simp [h]
      rw [hto, Nat.shiftRight_one, ← hx2]
      have hdm := Nat.div_add_mod y 2
      calc 2 * (x * 2 ^ i + y / 2) + y % 2
          = 2 * (x * 2 ^ i) + (2 * (y / 2) + y % 2) := by ring
        _ = x * 2 ^ (i + 1) + y := by rw [hdm]; ring

/-- OR of two values below 2^n stays below 2^n. -/
theorem lor_lt_two_pow {x y n : ℕ} (hx : x < 2 ^ n) (hy : y < 2 ^ n) :
    x ||| y < 2 ^ n :=
  Nat.bitwise_lt hx hy

/-- One msb-first accumulation step is shift-and-add. -/
theorem data_accum_msb (opt : Options) (h : opt.bit_order = BitOrder.msbFirst)
    (acc b : ℕ) (hb : b < 2) : data_accum opt acc b = 2 * acc + b := by
  simp only [data_accum, h]
  rw [Nat.shiftLeft_eq, Nat.shiftLeft_eq, pow_zero, Nat.mul_one]
  have h1 := two_pow_mul_lor_eq_add 1 acc b (by simpa using hb)
  rw [pow_one] at h1
  rw [h1]; ring

/-- Folding msb-first accumulation over a bit list appends the bits,
most significant first. -/
theorem foldl_data_accum_msb (opt : Options) (h : opt.bit_order = BitOrder.msbFirst) :
    ∀ (l : List ℕ) (acc : ℕ), (∀ b ∈ l, b < 2) →
      l.foldl (data_accum opt) acc = acc * 2 ^ l.length + Nat.ofDigits 2 l.reverse := by
  intro l
  induction l with
  | nil => intro acc _; simp [Nat.ofDigits]
  | cons b t ih =>
      intro acc hb
      have hb0 : b < 2 := hb b (List.mem_cons_self b t)
      rw [List.foldl_cons, data_accum_msb opt h acc b hb0,
        ih _ (fun x hx => hb x (List.mem_cons_of_mem _ hx)),
        List.reverse_cons, Nat.ofDigits_append]
      simp only [List.length_cons, List.length_reverse, Nat.ofDigits_singleton]
      ring

/-- Folding lsb-first accumulation over the remaining bits, given that the
bits already received occupy the top of the accumulator. -/
theorem foldl_data_accum_lsb (opt : Options) (h : opt.bit_order = BitOrder.lsbFirst) :
    ∀ (l : List ℕ) (j m : ℕ), (∀ b ∈ l, b < 2) →
      j + l.length = opt.num_data_bits → m < 2 ^ j →
      l.foldl (data_accum opt) (m * 2 ^ l.length) = m + 2 ^ j * Nat.ofDigits 2 l := by
  intro l
  induction l with
  | nil =>
      intro j m _ hj hm
      simp [Nat.ofDigits]
  | cons b t ih =>
      intro j m hb hj hm
      have hb0 : b < 2 := hb b (List.mem_cons_self b t)
      have hlen : j + t.length + 1 = opt.num_data_bits := by
        simp only [List.length_cons] at hj; omega
      have hstep : data_accum opt (m * 2 ^ (t.length + 1)) b =
          (b * 2 ^ j + m) * 2 ^ t.length := by
        simp only [data_accum, h]
        rw [Nat.shiftRight_one, Nat.shiftLeft_eq]
        have h1 : m * 2 ^ (t.length + 1) / 2 = m * 2 ^ t.length := by
          rw [pow_succ, ← Nat.mul_assoc]
          exact Nat.mul_div_cancel _ (by omega)
        rw [h1, Nat.lor_comm]
        have h2 : m * 2 ^ t.length < 2 ^ (opt.num_data_bits - 1) := by
          have he : opt.num_data_bits - 1 = j + t.length := by omega
          rw [he, pow_add]
          exact Nat.mul_lt_mul_of_lt_of_le hm le_rfl (Nat.two_pow_pos _)
        rw [two_pow_mul_lor_eq_add _ b _ h2]
        have h3 : (2 : ℕ) ^ (opt.num_data_bits - 1) = 2 ^ j * 2 ^ t.length := by
          rw [← pow_add]
          congr 1
          omega
        rw [h3]; ring
      rw [List.foldl_cons]
      simp only [List.length_cons]
      rw [hstep,
        ih (j + 1) (b * 2 ^ j + m) (fun x hx => hb x (List.mem_cons_of_mem _ hx))
          (by omega)
          (by
            have : (2 : ℕ) ^ (j + 1) = 2 ^ j + 2 ^ j := by ring
            have hpos := Nat.two_pow_pos j
            nlinarith),
        Nat.ofDigits_cons]
      ring

/-- The bits of a base-2 ofDigits value of 0/1 digits are the digits. -/
theorem testBit_ofDigits :
    ∀ (l : List ℕ), (∀ b ∈ l, b < 2) → ∀ i,
      (Nat.ofDigits 2 l).testBit i = decide (l.getD i 0 = 1) := by
  intro l
  induction l with
  | nil =>
      intro _ i
      simp [Nat.ofDigits]
  | cons b t ih =>
      intro hb i
      have hb0 : b < 2 := hb b (List.mem_cons_self b t)
      have hcons : Nat.ofDigits 2 (b :: t) =
          Nat.bit (decide (b = 1)) (Nat.ofDigits 2 t) := by
        rw [Nat.ofDigits_cons, Nat.bit_val]
        have hbn : ((decide (b = 1)) : Bool).toNat = b := by
          interval_cases b <;> simp
        rw [hbn]
        ring
      rw [hcons]
      cases i with
      | zero =>
          rw [Nat.testBit_bit_zero]
          simp
      | succ i =>
          rw [Nat.testBit_bit_succ]
          rw [ih (fun x hx => hb x (List.mem_cons_of_mem _ hx)) i]
          simp

/-! Helper lemmas about the frame state machine. -/

/-- python_not maps 0/1 samples to 0/1 samples. -/
theorem python_not_lt_two (sig : ℕ) : python_not sig < 2 := by
  unfold python_not
  split <;> omega

/-- One lsb-first accumulation step keeps the accumulator below the
configured width. -/
theorem data_accum_lsb_lt (opt : Options) (h : opt.bit_order = BitOrder.lsbFirst)
    (hn : 0 < opt.num_data_bits) (acc sig : ℕ) (hacc : acc < 2 ^ opt.num_data_bits)
    (hsig : sig < 2) : data_accum opt acc sig < 2 ^ opt.num_data_bits := by
  simp only [data_accum, h]
  apply lor_lt_two_pow
  · rw [Nat.shiftRight_one]
    exact lt_of_le_of_lt (Nat.div_le_self _ _) hacc
  · rw [Nat.shiftLeft_eq]
    calc sig * 2 ^ (opt.num_data_bits - 1) < 2 * 2 ^ (opt.num_data_bits - 1) :=
          Nat.mul_lt_mul_of_lt_of_le hsig le_rfl (Nat.two_pow_pos _)
      _ = 2 ^ opt.num_data_bits := by
          rw [← pow_succ']
          congr 1
          omega

/-- Field characterization of one get_data_bits step. -/
theorem get_data_bits_fields (opt : Options) (bwR : ℚ) (rxtx : ℕ) (sn : ℤ)
    (sig : ℕ) (s : LineState) :
    (get_data_bits opt bwR rxtx sn sig s).1.cur_data_bit = s.cur_data_bit + 1 ∧
    (get_data_bits opt bwR rxtx sn sig s).1.datavalue = data_accum opt s.datavalue sig ∧
    (get_data_bits opt bwR rxtx sn sig s).1.state =
      (if s.cur_data_bit + 1 < opt.num_data_bits then s.state
       else if opt.parity_type = ParityType.none then DecState.getStopBits
       else DecState.getParityBit) := by
  unfold get_data_bits
  by_cases hss : s.startsample = -1 <;>
  by_cases hc : s.cur_data_bit + 1 < opt.num_data_bits <;>
  simp [hss, hc]

/-- The state machine step preserves the per-line invariant. -/
theorem inv_preserved (opt : Options) (hn : 0 < opt.num_data_bits) (bwR : ℚ)
    (rxtx : ℕ) (sn : ℤ) (sig : ℕ) (hsig : sig < 2) (inv : Bool) (s : LineState)
    (hInv : Inv opt s) : Inv opt (inspect_sample opt bwR rxtx sn sig inv s).1 := by
  have hsig' : (if inv then python_not sig else sig) < 2 := by
    cases inv
    · simpa using hsig
    · simpa using python_not_lt_two sig
  obtain ⟨hcur, hdata⟩ := hInv
  cases hstate : s.state with
  | waitForStartBit =>
      simp only [inspect_sample, hstate, wait_for_start_bit]
      exact ⟨hcur, by simp⟩
  | getStartBit =>
      simp only [inspect_sample, hstate, get_start_bit]
      split <;> split <;>
        first
          | exact ⟨hcur, by simp⟩
          | exact ⟨Nat.zero_le _, fun _ => ⟨hn, Nat.two_pow_pos _, fun _ => Nat.two_pow_pos _⟩⟩
  | getDataBits =>
      obtain ⟨hlt, hdv, hmsb⟩ := hdata hstate
      obtain ⟨hf1, hf2, hf3⟩ :=
        get_data_bits_fields opt bwR rxtx sn (if inv then python_not sig else sig) s
      simp only [inspect_sample, hstate]
      constructor
      · rw [hf1]; omega
      · intro hst
        rw [hf3] at hst
        by_cases hc : s.cur_data_bit + 1 < opt.num_data_bits
        · refine ⟨by rw [hf1]; omega, ?_, ?_⟩
          · rw [hf2]
            cases hbo : opt.bit_order with
            | lsbFirst => exact data_accum_lsb_lt opt hbo hn _ _ hdv hsig'
            | msbFirst =>
                rw [data_accum_msb opt hbo _ _ hsig']
                have h1 := hmsb hbo
                have h2 : (2 : ℕ) ^ (s.cur_data_bit + 1) = 2 * 2 ^ s.cur_data_bit := by
                  ring
                have h3 : (2 : ℕ) ^ (s.cur_data_bit + 1) ≤ 2 ^ opt.num_data_bits :=
                  Nat.pow_le_pow_right (by omega) (by omega)
                omega
          · intro hbo
            rw [hf2, hf1, data_accum_msb opt hbo _ _ hsig']
            have h1 := hmsb hbo
            have h2 : (2 : ℕ) ^ (s.cur_data_bit + 1) = 2 * 2 ^ s.cur_data_bit := by
              ring
            omega
        · rw [if_neg hc] at hst
          exact absurd hst (by split <;> simp)
  | getParityBit =>
      simp only [inspect_sample, hstate, get_parity_bit]
      exact ⟨hcur, by simp⟩
  | getStopBits =>
      simp only [inspect_sample, hstate, get_stop_bits]
      exact ⟨hcur, by simp⟩

/-- Running the whole data-bit phase folds the sampled bits through the
accumulator and leaves the automaton in parity or stop reception. -/
theorem run_data_phase (opt : Options) (bwR : ℚ) (rxtx : ℕ) :
    ∀ (samples : List (ℤ × ℕ)) (s : LineState),
      s.state = DecState.getDataBits →
      s.cur_data_bit + samples.length = opt.num_data_bits →
      samples ≠ [] →
      (run_line opt bwR rxtx false samples s).1.datavalue =
          (samples.map Prod.snd).foldl (data_accum opt) s.datavalue ∧
      (run_line opt bwR rxtx false samples s).1.state =
          (if opt.parity_type = ParityType.none then DecState.getStopBits
           else DecState.getParityBit) ∧
      (run_line opt bwR rxtx false samples s).1.cur_data_bit = opt.num_data_bits := by
  intro samples
  induction samples with
  | nil => intro s _ _ hne; exact absurd rfl hne
  | cons p rest ih =>
      intro s hst hlen _
      cases p with
      | mk sn sig =>
          have hdisp : inspect_sample opt bwR rxtx sn sig false s =
              get_data_bits opt bwR rxtx sn sig s := by
            simp [inspect_sample, hst]
          obtain ⟨hf1, hf2, hf3⟩ := get_data_bits_fields opt bwR rxtx sn sig s
          rcases rest with _ | ⟨q, rest'⟩
          · have hc : ¬ (s.cur_data_bit + 1 < opt.num_data_bits) := by
              simp only [List.length_cons, List.length_nil] at hlen; omega
            simp only [run_line, hdisp]
            refine ⟨?_, ?_, ?_⟩
            · rw [hf2]; simp
            · rw [hf3, if_neg hc]
            · rw [hf1]
              simp only [List.length_cons, List.length_nil] at hlen; omega
          · have hc : s.cur_data_bit + 1 < opt.num_data_bits := by
              simp only [List.length_cons] at hlen; omega
            have hst' : (get_data_bits opt bwR rxtx sn sig s).1.state =
                DecState.getDataBits := by rw [hf3, if_pos hc, hst]
            have hlen' : (get_data_bits opt bwR rxtx sn sig s).1.cur_data_bit +
                (q :: rest').length = opt.num_data_bits := by
              rw [hf1]
              simp only [List.length_cons] at hlen ⊢; omega
            have ihr := ih (get_data_bits opt bwR rxtx sn sig s).1 hst' hlen' (by simp)
            simp only [run_line] at ihr
            simp only [run_line, hdisp]
            refine ⟨?_, ihr.2.1, ihr.2.2⟩
            rw [ihr.1, hf2]
            simp

/-- Counting 1-digits of the binary expansion is the population count. -/
theorem countOnes_aux :
    ∀ fuel v, v ≤ fuel → (toBaseAux 2 fuel v).count 1 = popCountSpec v := by
  intro fuel
  induction fuel with
  | zero =>
      intro v hv
      have hv0 : v = 0 := by omega
      subst hv0
      simp [toBaseAux, popCountSpec]
  | succ fuel ih =>
      intro v hv
      by_cases h0 : v = 0
      · subst h0; simp [toBaseAux, popCountSpec]
      · have hdiv : v / 2 < v := Nat.div_lt_self (Nat.pos_of_ne_zero h0) (by omega)
        rw [popCountSpec]
        simp only [toBaseAux, if_neg h0, List.count_cons, dif_neg h0]
        rw [ih (v / 2) (by omega)]
        rcases Nat.mod_two_eq_zero_or_one v with h | h
        · simp [h]
        · simp [h]
          omega

/-- bin(data).count('1') agrees with the specification popcount. -/
theorem countOnes_eq_popCountSpec (d : ℕ) : countOnes d = popCountSpec d :=
  countOnes_aux d d le_rfl

/-- Values below 2^bits fit in w hex digits when bits ≤ 4w. -/
theorem lt_sixteen_pow {v bits w : ℕ} (hv : v < 2 ^ bits) (h : bits ≤ 4 * w) :
    v < 16 ^ w := by
  calc v < 2 ^ bits := hv
    _ ≤ 2 ^ (4 * w) := Nat.pow_le_pow_right (by omega) h
    _ = 16 ^ w := by rw [pow_mul]; norm_num

/-- Values below 2^bits fit in w octal digits when bits ≤ 3w. -/
theorem lt_eight_pow {v bits w : ℕ} (hv : v < 2 ^ bits) (h : bits ≤ 3 * w) :
    v < 8 ^ w := by
  calc v < 2 ^ bits := hv
    _ ≤ 2 ^ (3 * w) := Nat.pow_le_pow_right (by omega) h
    _ = 8 ^ w := by rw [pow_mul]; norm_num

/-! The claims. -/

/-- C2: the parity validation function parity_ok returns, for mode zero,
true iff the parity bit is 0; for mode one, true iff the parity bit is 1;
for mode odd, true iff popcount(data) + parity_bit is odd; for mode even,
true iff popcount(data) + parity_bit is even — for every parity bit value
in {0,1} and every data value. -/
theorem claim_c2 (p d nb : ℕ) (hp : p ≤ 1) :
    (parity_ok ParityType.zero p d nb = true ↔ p = 0) ∧
    (parity_ok ParityType.one p d nb = true ↔ p = 1) ∧
    (parity_ok ParityType.odd p d nb = true ↔ Odd (popCountSpec d + p)) ∧
    (parity_ok ParityType.even p d nb = true ↔ Even (popCountSpec d + p)) := by
  refine ⟨?_, ?_, ?_, ?_⟩
  · simp [parity_ok]
  · simp [parity_ok]
  · simp [parity_ok, countOnes_eq_popCountSpec, Nat.odd_iff]
  · simp [parity_ok, countOnes_eq_popCountSpec, Nat.even_iff]

/-- Witness for C2 at parity bit 1, data 65 (popcount 2), 8 data bits. -/
theorem claim_c2_witness :
    (1 : ℕ) ≤ 1 ∧
    (parity_ok ParityType.odd 1 65 8 = true ↔ Odd (popCountSpec 65 + 1)) :=
  ⟨le_rfl, (claim_c2 1 65 8 le_rfl).2.2.1⟩

/-- C10: format_value renders a printable ascii value as that character and
any other value as bracketed uppercase hex of width 2 (data-bit count ≤ 8)
or 3 (9 bits); dec is plain unpadded decimal; hex, oct and bin are
zero-padded numerals of widths ceil(bits/4), ceil(bits/3) and bits; and the
four unit checks of the spec hold. -/
theorem claim_c10 (opt : Options) (v : ℕ) :
    (opt.format = DataFormat.ascii → 32 ≤ v → v ≤ 126 →
      format_value opt v = Option.some (String.mk [Char.ofNat v])) ∧
    (opt.format = DataFormat.ascii → ¬(32 ≤ v ∧ v ≤ 126) → opt.num_data_bits ≤ 8 →
      v < 2 ^ opt.num_data_bits →
      ∃ hx : String, format_value opt v = Option.some ("[" ++ hx ++ "]") ∧
        hx.length = 2 ∧ parseBase 16 hx = v) ∧
    (opt.format = DataFormat.ascii → ¬(32 ≤ v ∧ v ≤ 126) → 8 < opt.num_data_bits →
      opt.num_data_bits ≤ 9 → v < 2 ^ opt.num_data_bits →
      ∃ hx : String, format_value opt v = Option.some ("[" ++ hx ++ "]") ∧
        hx.length = 3 ∧ parseBase 16 hx = v) ∧
    (opt.format = DataFormat.dec →
      format_value opt v = Option.some (natToBase 10 v) ∧
      parseBase 10 (natToBase 10 v) = v) ∧
    (opt.format = DataFormat.hex → 1 ≤ opt.num_data_bits → v < 2 ^ opt.num_data_bits →
      ∃ s : String, format_value opt v = Option.some s ∧
        s.length = (opt.num_data_bits + 4 - 1) / 4 ∧ parseBase 16 s = v) ∧
    (opt.format = DataFormat.oct → 1 ≤ opt.num_data_bits → v < 2 ^ opt.num_data_bits →
      ∃ s : String, format_value opt v = Option.some s ∧
        s.length = (opt.num_data_bits + 3 - 1) / 3 ∧ parseBase 8 s = v) ∧
    (opt.format = DataFormat.bin → 1 ≤ opt.num_data_bits → v < 2 ^ opt.num_data_bits →
      ∃ s : String, format_value opt v = Option.some s ∧
        s.length = opt.num_data_bits ∧ parseBase 2 s = v) ∧
    format_value { sampleOpt with format := DataFormat.ascii } 65 = Option.some "A" ∧
    format_value { sampleOpt with format := DataFormat.ascii } 200 = Option.some "[C8]" ∧
    format_value sampleOpt 10 = Option.some "0A" ∧
    format_value { sampleOpt with num_data_bits := 5, format := DataFormat.bin } 5 =
      Option.some "00101" := by
  refine ⟨?_, ?_, ?_, ?_, ?_, ?_, ?_, by decide, by decide, by decide, by decide⟩
  · intro hfmt h32 h126
    simp [format_value, hfmt, h32, h126]
  · intro hfmt hnp hb8 hv
    refine ⟨padZero 2 (natToBase 16 v), ?_, ?_, ?_⟩
    · simp only [format_value, hfmt]
      rw [if_neg hnp, if_pos hb8]
    · exact padZero_length 2 _ (natToBase_length_le 16 v 2 (by omega) (by omega)
        (lt_sixteen_pow hv (by omega)))
    · exact parseBase_padZero_natToBase 16 v 2 (by omega) (by omega)
  · intro hfmt hnp hb8 hb9 hv
    refine ⟨padZero 3 (natToBase 16 v), ?_, ?_, ?_⟩
    · simp only [format_value, hfmt]
      rw [if_neg hnp, if_neg (by omega : ¬ opt.num_data_bits ≤ 8)]
    · exact padZero_length 3 _ (natToBase_length_le 16 v 3 (by omega) (by omega)
        (lt_sixteen_pow hv (by omega)))
    · exact parseBase_padZero_natToBase 16 v 3 (by omega) (by omega)
  · intro hfmt
    exact ⟨by simp [format_value, hfmt],
      parseBase_natToBase 10 v (by omega) (by omega)⟩
  · intro hfmt hb hv
    refine ⟨padZero ((opt.num_data_bits + 4 - 1) / 4) (natToBase 16 v), ?_, ?_, ?_⟩
    · simp [format_value, hfmt]
    · exact padZero_length _ _ (natToBase_length_le 16 v _ (by omega) (by omega)
        (lt_sixteen_pow hv (by omega)))
    · exact parseBase_padZero_natToBase 16 v _ (by omega) (by omega)
  · intro hfmt hb hv
    refine ⟨padZero ((opt.num_data_bits + 3 - 1) / 3) (natToBase 8 v), ?_, ?_, ?_⟩
    · simp [format_value, hfmt]
    · exact padZero_length _ _ (natToBase_length_le 8 v _ (by omega) (by omega)
        (lt_eight_pow hv (by omega)))
    · exact parseBase_padZero_natToBase 8 v _ (by omega) (by omega)
  · intro hfmt hb hv
    refine ⟨padZero opt.num_data_bits (natToBase 2 v), ?_, ?_, ?_⟩
    · simp [format_value, hfmt]
    · exact padZero_length _ _ (natToBase_length_le 2 v _ (by omega) (by omega) hv)
    · exact parseBase_padZero_natToBase 2 v _ (by omega) (by omega)

/-- Witness for C10: the non-printable ascii branch at value 200, 8 bits. -/
theorem claim_c10_witness :
    ({ sampleOpt with format := DataFormat.ascii } : Options).format = DataFormat.ascii ∧
    ¬((32 : ℕ) ≤ 200 ∧ (200 : ℕ) ≤ 126) ∧
    ({ sampleOpt with format := DataFormat.ascii } : Options).num_data_bits ≤ 8 ∧
    (200 : ℕ) < 2 ^ ({ sampleOpt with format := DataFormat.ascii } : Options).num_data_bits ∧
    ∃ hx : String,
      format_value { sampleOpt with format := DataFormat.ascii } 200 =
        Option.some ("[" ++ hx ++ "]") ∧ hx.length = 2 ∧ parseBase 16 hx = 200 :=
  ⟨rfl, by decide, by decide, by decide,
    (claim_c10 { sampleOpt with format := DataFormat.ascii } 200).2.1 rfl (by decide)
      (by decide) (by decide)⟩

/-- C3: for every data-bit count in 5..9 and both bit orders, folding a bit
sequence of that length through the data-bit accumulation step starting
from 0 yields exactly the integer whose bit i (lsb-first) or bit
count-1-i (msb-first) is the i-th received bit; and for formats hex, oct,
bin and dec, parsing the formatted string of that value in the
corresponding base recovers the integer. -/
theorem claim_c3 (n : ℕ) (h5 : 5 ≤ n) (h9 : n ≤ 9) (opt : Options)
    (hopt : opt.num_data_bits = n) (bits : List ℕ) (hlen : bits.length = n)
    (hb : ∀ b ∈ bits, b < 2) :
    (opt.bit_order = BitOrder.lsbFirst →
      bits.foldl (data_accum opt) 0 = Nat.ofDigits 2 bits ∧
      ∀ i, i < n → (bits.foldl (data_accum opt) 0).testBit i =
        decide (bits.getD i 0 = 1)) ∧
    (opt.bit_order = BitOrder.msbFirst →
      bits.foldl (data_accum opt) 0 = Nat.ofDigits 2 bits.reverse ∧
      ∀ i, i < n → (bits.foldl (data_accum opt) 0).testBit (n - 1 - i) =
        decide (bits.getD i 0 = 1)) ∧
    parseBase 16 ((format_value { opt with format := DataFormat.hex }
      (bits.foldl (data_accum opt) 0)).getD "") = bits.foldl (data_accum opt) 0 ∧
    parseBase 8 ((format_value { opt with format := DataFormat.oct }
      (bits.foldl (data_accum opt) 0)).getD "") = bits.foldl (data_accum opt) 0 ∧
    parseBase 2 ((format_value { opt with format := DataFormat.bin }
      (bits.foldl (data_accum opt) 0)).getD "") = bits.foldl (data_accum opt) 0 ∧
    parseBase 10 ((format_value { opt with format := DataFormat.dec }
      (bits.foldl (data_accum opt) 0)).getD "") = bits.foldl (data_accum opt) 0 := by
  refine ⟨?_, ?_, ?_, ?_, ?_, ?_⟩
  · intro hbo
    have hfold : bits.foldl (data_accum opt) 0 = Nat.ofDigits 2 bits := by
      have h1 := foldl_data_accum_lsb opt hbo bits 0 0 hb (by omega) (by simp)
      simpa using h1
    refine ⟨hfold, ?_⟩
    intro i _
    rw [hfold, testBit_ofDigits bits hb i]
  · intro hbo
    have hfold : bits.foldl (data_accum opt) 0 = Nat.ofDigits 2 bits.reverse := by
      have h1 := foldl_data_accum_msb opt hbo bits 0 hb
      simpa using h1
    refine ⟨hfold, ?_⟩
    intro i hi
    rw [hfold, testBit_ofDigits bits.reverse (by simpa using hb) (n - 1 - i)]
    have hi' : i < bits.length := by omega
    have hj : n - 1 - i < bits.reverse.length := by
      rw [List.length_reverse]; omega
    rw [List.getD_eq_getElem bits.reverse 0 hj, List.getD_eq_getElem bits 0 hi',
      List.getElem_reverse]
    have hidx : bits.length - 1 - (n - 1 - i) = i := by omega
    simp only [hidx]
  · show parseBase 16 ((Option.some (padZero _ (natToBase 16 _))).getD "") = _
    exact parseBase_padZero_natToBase 16 _ _ (by omega) (by omega)
  · show parseBase 8 ((Option.some (padZero _ (natToBase 8 _))).getD "") = _
    exact parseBase_padZero_natToBase 8 _ _ (by omega) (by omega)
  · show parseBase 2 ((Option.some (padZero _ (natToBase 2 _))).getD "") = _
    exact parseBase_padZero_natToBase 2 _ _ (by omega) (by omega)
  · show parseBase 10 ((Option.some (natToBase 10 _)).getD "") = _
    exact parseBase_natToBase 10 _ (by omega) (by omega)

/-- Witness for C3: 8 lsb-first bits of 0x41 accumulate to ofDigits 2. -/
theorem claim_c3_witness :
    (5 : ℕ) ≤ 8 ∧ (8 : ℕ) ≤ 9 ∧ sampleOpt.num_data_bits = 8 ∧
    ([1, 0, 0, 0, 0, 0, 1, 0] : List ℕ).length = 8 ∧
    (∀ b ∈ ([1, 0, 0, 0, 0, 0, 1, 0] : List ℕ), b < 2) ∧
    ([1, 0, 0, 0, 0, 0, 1, 0] : List ℕ).foldl (data_accum sampleOpt) 0 =
      Nat.ofDigits 2 [1, 0, 0, 0, 0, 0, 1, 0] :=
  ⟨by omega, by omega, rfl, rfl, by decide,
    ((claim_c3 8 (by omega) (by omega) sampleOpt rfl [1, 0, 0, 0, 0, 0, 1, 0] rfl
      (by decide)).1 rfl).1⟩

/-- C4: every step of the frame state machine preserves the invariant that
cur_data_bit lies in [0, data_bit_count]; it is reset to 0 on a valid start
bit, incremented once per data-bit sample, and the data-bit group completes
exactly when it reaches data_bit_count; at completion the accumulator has
all bits above position data_bit_count - 1 zero and encodes exactly the
received bits in the configured order. -/
theorem claim_c4 (opt : Options) (hn : 0 < opt.num_data_bits) :
    (∀ (bwR : ℚ) (rxtx : ℕ) (sn : ℤ) (sig : ℕ) (inv : Bool) (s : LineState),
      sig < 2 → Inv opt s → Inv opt (inspect_sample opt bwR rxtx sn sig inv s).1) ∧
    (∀ s : LineState, Inv opt s → s.cur_data_bit ≤ opt.num_data_bits) ∧
    (∀ (rxtx : ℕ) (s : LineState),
      (get_start_bit rxtx 0 s).1.cur_data_bit = 0 ∧
      (get_start_bit rxtx 0 s).1.datavalue = 0 ∧
      (get_start_bit rxtx 0 s).1.state = DecState.getDataBits) ∧
    (∀ (bwR : ℚ) (rxtx : ℕ) (sn : ℤ) (sig : ℕ) (s : LineState),
      (get_data_bits opt bwR rxtx sn sig s).1.cur_data_bit = s.cur_data_bit + 1) ∧
    (∀ (bwR : ℚ) (rxtx : ℕ) (sn : ℤ) (sig : ℕ) (s : LineState),
      s.state = DecState.getDataBits →
      ((get_data_bits opt bwR rxtx sn sig s).1.state = DecState.getDataBits ↔
        s.cur_data_bit + 1 < opt.num_data_bits)) ∧
    (∀ (bwR : ℚ) (rxtx : ℕ) (samples : List (ℤ × ℕ)) (s : LineState),
      s.state = DecState.getDataBits → s.cur_data_bit = 0 → s.datavalue = 0 →
      samples.length = opt.num_data_bits → (∀ p ∈ samples, p.2 < 2) →
      (run_line opt bwR rxtx false samples s).1.datavalue < 2 ^ opt.num_data_bits ∧
      (∀ i, opt.num_data_bits ≤ i →
        (run_line opt bwR rxtx false samples s).1.datavalue.testBit i = false) ∧
      (opt.bit_order = BitOrder.lsbFirst →
        (run_line opt bwR rxtx false samples s).1.datavalue =
          Nat.ofDigits 2 (samples.map Prod.snd)) ∧
      (opt.bit_order = BitOrder.msbFirst →
        (run_line opt bwR rxtx false samples s).1.datavalue =
          Nat.ofDigits 2 (samples.map Prod.snd).reverse)) := by
  refine ⟨?_, ?_, ?_, ?_, ?_, ?_⟩
  · intro bwR rxtx sn sig inv s hsig hInv
    exact inv_preserved opt hn bwR rxtx sn sig hsig inv s hInv
  · intro s hInv
    exact hInv.1
  · intro rxtx s
    refine ⟨?_, ?_, ?_⟩ <;> simp [get_start_bit]
  · intro bwR rxtx sn sig s
    exact (get_data_bits_fields opt bwR rxtx sn sig s).1
  · intro bwR rxtx sn sig s hst
    rw [(get_data_bits_fields opt bwR rxtx sn sig s).2.2]
    by_cases hc : s.cur_data_bit + 1 < opt.num_data_bits
    · simp [hc, hst]
    · rw [if_neg hc]
      split <;> simp [hc]
  · intro bwR rxtx samples s hst hcur hdv hlen hsig
    have hne : samples ≠ [] := by
      intro h
      rw [h] at hlen
      simp at hlen
      omega
    have hrun := run_data_phase opt bwR rxtx samples s hst (by omega) hne
    have hm : ∀ b ∈ samples.map Prod.snd, b < 2 := by
      intro b hbm
      rcases List.mem_map.mp hbm with ⟨p, hp, rfl⟩
      exact hsig p hp
    have hmlen : (samples.map Prod.snd).length = opt.num_data_bits := by
      rw [List.length_map]; exact hlen
    have hval : (run_line opt bwR rxtx false samples s).1.datavalue =
        (samples.map Prod.snd).foldl (data_accum opt) 0 := by
      rw [hrun.1, hdv]
    have henc : (samples.map Prod.snd).foldl (data_accum opt) 0 < 2 ^ opt.num_data_bits := by
      cases hbo : opt.bit_order with
      | lsbFirst =>
          have h1 := foldl_data_accum_lsb opt hbo (samples.map Prod.snd) 0 0 hm
            (by omega) (by simp)
          simp only [Nat.zero_mul, Nat.pow_zero, Nat.one_mul, Nat.zero_add] at h1
          rw [h1]
          calc Nat.ofDigits 2 (samples.map Prod.snd) <
                2 ^ (samples.map Prod.snd).length :=
              Nat.ofDigits_lt_base_pow_length (by omega) hm
            _ = 2 ^ opt.num_data_bits := by rw [hmlen]
      | msbFirst =>
          have h1 := foldl_data_accum_msb opt hbo (samples.map Prod.snd) 0 hm
          simp only [Nat.zero_mul, Nat.zero_add] at h1
          rw [h1]
          calc Nat.ofDigits 2 (samples.map Prod.snd).reverse <
                2 ^ (samples.map Prod.snd).reverse.length :=
              Nat.ofDigits_lt_base_pow_length (by omega) (by simpa using hm)
            _ = 2 ^ opt.num_data_bits := by
              rw [List.length_reverse, hmlen]
    refine ⟨by rw [hval]; exact henc, ?_, ?_, ?_⟩
    · intro i hi
      apply Nat.testBit_lt_two_pow
      calc (run_line opt bwR rxtx false samples s).1.datavalue <
            2 ^ opt.num_data_bits := by rw [hval]; exact henc
        _ ≤ 2 ^ i := Nat.pow_le_pow_right (by omega) hi
    · intro hbo
      have h1 := foldl_data_accum_lsb opt hbo (samples.map Prod.snd) 0 0 hm
        (by omega) (by simp)
      simp only [Nat.zero_mul, Nat.pow_zero, Nat.one_mul, Nat.zero_add] at h1
      rw [hval, h1]
    · intro hbo
      have h1 := foldl_data_accum_msb opt hbo (samples.map Prod.snd) 0 hm
      simp only [Nat.zero_mul, Nat.zero_add] at h1
      rw [hval, h1]

/-- Witness for C4: the invariant holds at reset and is preserved by one
valid start-bit step of the sample configuration. -/
theorem claim_c4_witness :
    0 < sampleOpt.num_data_bits ∧
    ((1 : ℕ) < 2 ∧ Inv sampleOpt reset) ∧
    Inv sampleOpt (inspect_sample sampleOpt 10 0 0 1 false reset).1 :=
  ⟨by decide,
    ⟨by omega, ⟨by simp [reset, sampleOpt], by intro h; simp [reset] at h⟩⟩,
    (claim_c4 sampleOpt (by decide)).1 10 0 0 1 false reset (by omega)
      ⟨by simp [reset, sampleOpt], by intro h; simp [reset] at h⟩⟩

/-- C5: in GET START BIT, a sampled start-bit value that is not 0 produces
exactly one INVALID STARTBIT structured event and one frame-error
annotation, returns the automaton to WAIT FOR START BIT, and emits nothing
else for that frame attempt. -/
theorem claim_c5 (rxtx : ℕ) (signal : ℕ) (s : LineState) (h : signal ≠ 0) :
    get_start_bit rxtx signal s =
      ({ s with startbit := (signal : ℤ), state := DecState.waitForStartBit },
       [Out.putp (Packet.invalid_startbit rxtx signal),
        Out.putg (rxtx + 10) ["Frame error", "Frame err", "FE"]]) := by
  simp [get_start_bit, h]

/-- Witness for C5 at start-bit value 1. -/
theorem claim_c5_witness :
    (1 : ℕ) ≠ 0 ∧
    get_start_bit 0 1 reset =
      ({ reset with startbit := (1 : ℤ), state := DecState.waitForStartBit },
       [Out.putp (Packet.invalid_startbit 0 1),
        Out.putg 10 ["Frame error", "Frame err", "FE"]]) :=
  ⟨by omega, claim_c5 0 1 reset (by omega)⟩

/-- C6: in GET STOP BITS, a sampled stop-bit value of 0 produces both the
INVALID STOPBIT event with its frame-error annotation and the normal
STOPBIT event with its stop-bit annotation, and the automaton returns to
WAIT FOR START BIT for every stop-bit value. -/
theorem claim_c6 (rxtx : ℕ) (signal : ℕ) (s : LineState) :
    ((get_stop_bits rxtx signal s).1.state = DecState.waitForStartBit) ∧
    (signal = 0 →
      get_stop_bits rxtx signal s =
        ({ s with stopbit1 := (0 : ℤ), state := DecState.waitForStartBit },
         [Out.putp (Packet.invalid_stopbit rxtx 0),
          Out.putg (rxtx + 10) ["Frame error", "Frame err", "FE"],
          Out.putp (Packet.stopbit rxtx 0),
          Out.putg (rxtx + 4) ["Stop bit", "Stop", "T"]])) := by
  constructor
  · rfl
  · intro h
    subst h
    simp [get_stop_bits]

/-- Witness for C6 at stop-bit value 0. -/
theorem claim_c6_witness :
    (0 : ℕ) = 0 ∧
    get_stop_bits 0 0 reset =
      ({ reset with stopbit1 := (0 : ℤ), state := DecState.waitForStartBit },
       [Out.putp (Packet.invalid_stopbit 0 0),
        Out.putg 10 ["Frame error", "Frame err", "FE"],
        Out.putp (Packet.stopbit 0 0),
        Out.putg 4 ["Stop bit", "Stop", "T"]]) :=
  ⟨rfl, (claim_c6 0 0 reset).2 rfl⟩

/-- C7 counterexample: the claimed value set {0.5, 1.0, 1.5, 2.0} is not
the declared one — 2.0 is not a recognized stop-bit count, while 0.0 is. -/
theorem claim_c7_counterexample :
    (2 : ℚ) ∉ num_stop_bits_values ∧ (0 : ℚ) ∈ num_stop_bits_values := by
  constructor <;> norm_num [num_stop_bits_values]

/-- C7 (amended): the recognized stop-bit counts are exactly
{0.0, 0.5, 1.0, 1.5}, the configured count never influences the dispatch, and
only the first stop bit is ever sampled and validated: the stop state
records a single stop bit and returns the automaton to idle. -/
theorem claim_c7 :
    (∀ q : ℚ, q ∈ num_stop_bits_values ↔ (q = 0 ∨ q = 1/2 ∨ q = 1 ∨ q = 3/2)) ∧
    (∀ (opt : Options) (q : ℚ) (bwR : ℚ) (rxtx : ℕ) (sn : ℤ) (sig : ℕ)
      (inv : Bool) (s : LineState),
      inspect_sample (setNumStopBits opt q) bwR rxtx sn sig inv s =
        inspect_sample opt bwR rxtx sn sig inv s) ∧
    (∀ (rxtx : ℕ) (sig : ℕ) (s : LineState),
      (get_stop_bits rxtx sig s).1.state = DecState.waitForStartBit ∧
      (get_stop_bits rxtx sig s).1.stopbit1 = (sig : ℤ)) := by
  refine ⟨?_, ?_, ?_⟩
  · intro q
    simp [num_stop_bits_values]
  · intro opt q bwR rxtx sn sig inv s
    cases opt
    rfl
  · intro rxtx sig s
    exact ⟨rfl, rfl⟩

/-- C1: get_wait_cond returns an edge wait condition in WAIT FOR START BIT
(falling, or rising when the line is inverted); in every other state it
returns a skip condition whose target is the ceiling of
frame_start + (bit_width - 1)/2 + bitnum * bit_width minus the current
sample number, where bitnum is 0 in GET START BIT, 1 + cur_data_bit in
GET DATA BITS, 1 + num_data_bits in GET PARITY BIT, and 1 + num_data_bits
plus 1 if parity is configured in GET STOP BITS. -/
theorem claim_c1 (opt : Options) (bwR : ℚ) (sn : ℤ) (inv : Bool) (s : LineState) :
    (s.state = DecState.waitForStartBit →
      get_wait_cond opt bwR sn inv s =
        (if inv then WaitCond.edgeRising else WaitCond.edgeFalling)) ∧
    (s.state = DecState.getStartBit →
      get_wait_cond opt bwR sn inv s =
        WaitCond.skip (⌈(s.frame_start : ℚ) + (bwR - 1) / 2 + ((0 : ℕ) : ℚ) * bwR⌉ - sn)) ∧
    (s.state = DecState.getDataBits →
      get_wait_cond opt bwR sn inv s =
        WaitCond.skip (⌈(s.frame_start : ℚ) + (bwR - 1) / 2 +
          ((1 + s.cur_data_bit : ℕ) : ℚ) * bwR⌉ - sn)) ∧
    (s.state = DecState.getParityBit →
      get_wait_cond opt bwR sn inv s =
        WaitCond.skip (⌈(s.frame_start : ℚ) + (bwR - 1) / 2 +
          ((1 + opt.num_data_bits : ℕ) : ℚ) * bwR⌉ - sn)) ∧
    (s.state = DecState.getStopBits →
      get_wait_cond opt bwR sn inv s =
        WaitCond.skip (⌈(s.frame_start : ℚ) + (bwR - 1) / 2 +
          ((1 + opt.num_data_bits +
            (if opt.parity_type = ParityType.none then 0 else 1) : ℕ) : ℚ) * bwR⌉ - sn)) := by
  refine ⟨?_, ?_, ?_, ?_, ?_⟩ <;> intro h <;>
    simp [get_wait_cond, h, get_sample_point]

/-- Witness for C1: the stop-bit slot of the sample configuration, one
sample before the target. -/
theorem claim_c1_witness :
    ({ reset with state := DecState.getStopBits, frame_start := 0 } : LineState).state =
      DecState.getStopBits ∧
    get_wait_cond sampleOpt 10 94 false
        { reset with state := DecState.getStopBits, frame_start := 0 } =
      WaitCond.skip (⌈(((0 : ℤ) : ℚ)) + ((10 : ℚ) - 1) / 2 +
        ((1 + sampleOpt.num_data_bits +
          (if sampleOpt.parity_type = ParityType.none then 0 else 1) : ℕ) : ℚ) * 10⌉ - 94) :=
  ⟨rfl, (claim_c1 sampleOpt 10 94 false
    { reset with state := DecState.getStopBits, frame_start := 0 }).2.2.2.2 rfl⟩

/-- C8: the parity_check option never influences decoding — runs differing
only in parity_check produce identical wait conditions, state transitions
and outputs — and parity validation runs whenever parity mode is not none:
data completion enters GET PARITY BIT iff parity is configured, and the
parity state's output is determined by parity_ok. -/
theorem claim_c8 (opt : Options) (b : Bool) :
    (∀ (bwR : ℚ) (rxtx : ℕ) (inv : Bool) (samples : List (ℤ × ℕ)) (s : LineState),
      run_line (setParityCheck opt b) bwR rxtx inv samples s =
        run_line opt bwR rxtx inv samples s) ∧
    (∀ (bwR : ℚ) (sn : ℤ) (inv : Bool) (s : LineState),
      get_wait_cond (setParityCheck opt b) bwR sn inv s =
        get_wait_cond opt bwR sn inv s) ∧
    (∀ (samplerate : Option ℚ) (has_rx has_tx : Bool) (rxs txs : List (ℤ × ℕ)),
      decode (setParityCheck opt b) samplerate has_rx has_tx rxs txs =
        decode opt samplerate has_rx has_tx rxs txs) ∧
    (∀ (bwR : ℚ) (rxtx : ℕ) (sn : ℤ) (sig : ℕ) (s : LineState),
      s.state = DecState.getDataBits → s.cur_data_bit + 1 = opt.num_data_bits →
      ((get_data_bits opt bwR rxtx sn sig s).1.state = DecState.getParityBit ↔
        opt.parity_type ≠ ParityType.none)) ∧
    (∀ (rxtx : ℕ) (sig : ℕ) (s : LineState),
      (get_parity_bit opt rxtx sig s).2 =
        (if parity_ok opt.parity_type sig s.datavalue opt.num_data_bits then
          [Out.putp (Packet.paritybit rxtx sig),
           Out.putg (rxtx + 4) ["Parity bit", "Parity", "P"]]
         else
          [Out.putp (Packet.parity_error rxtx 0 1),
           Out.putg (rxtx + 6) ["Parity error", "Parity err", "PE"]])) := by
  have hstep : ∀ (bwR : ℚ) (rxtx : ℕ) (sn : ℤ) (sigv : ℕ) (inv : Bool) (s : LineState),
      inspect_sample (setParityCheck opt b) bwR rxtx sn sigv inv s =
        inspect_sample opt bwR rxtx sn sigv inv s := by
    intro bwR rxtx sn sigv inv s
    cases opt
    rfl
  have hrun : ∀ (bwR : ℚ) (rxtx : ℕ) (inv : Bool) (samples : List (ℤ × ℕ)) (s : LineState),
      run_line (setParityCheck opt b) bwR rxtx inv samples s =
        run_line opt bwR rxtx inv samples s := by
    intro bwR rxtx inv samples
    induction samples with
    | nil => intro s; rfl
    | cons p rest ih =>
        intro s
        cases p with
        | mk sn sigv => simp only [run_line, hstep, ih]
  refine ⟨hrun, ?_, ?_, ?_, ?_⟩
  · intro bwR sn inv s
    cases opt
    rfl
  · intro samplerate has_rx has_tx rxs txs
    simp only [decode]
    rw [hrun, hrun]
    simp [setParityCheck]
  · intro bwR rxtx sn sig s hst hc
    rw [(get_data_bits_fields opt bwR rxtx sn sig s).2.2, if_neg (by omega)]
    by_cases hp : opt.parity_type = ParityType.none <;> simp [hp]
  · intro rxtx sig s
    rfl

/-- Witness for C8: with even parity and the last (8th) data bit arriving,
completion enters GET PARITY BIT. -/
theorem claim_c8_witness :
    ({ reset with state := DecState.getDataBits, cur_data_bit := 7 } : LineState).state =
      DecState.getDataBits ∧
    ({ reset with state := DecState.getDataBits, cur_data_bit := 7 } : LineState).cur_data_bit + 1 =
      ({ sampleOpt with parity_type := ParityType.even } : Options).num_data_bits ∧
    ((get_data_bits { sampleOpt with parity_type := ParityType.even } 10 0 75 1
        { reset with state := DecState.getDataBits, cur_data_bit := 7 }).1.state =
        DecState.getParityBit ↔
      ({ sampleOpt with parity_type := ParityType.even } : Options).parity_type ≠
        ParityType.none) :=
  ⟨rfl, rfl,
    (claim_c8 { sampleOpt with parity_type := ParityType.even } true).2.2.2.1
      10 0 75 1 { reset with state := DecState.getDataBits, cur_data_bit := 7 } rfl rfl⟩

/-- C9: decode fails immediately with SamplerateError when the sample rate
has not been set, fails with ChannelError when the sample rate is present
but neither line is, and an error result carries no decoded output. -/
theorem claim_c9 (opt : Options) (samplerate : Option ℚ) (has_rx has_tx : Bool)
    (rxs txs : List (ℤ × ℕ)) :
    (samplerate = Option.none →
      decode opt samplerate has_rx has_tx rxs txs =
        Except.error DecodeError.samplerateError) ∧
    (samplerate_missing samplerate = false → has_rx = false → has_tx = false →
      decode opt samplerate has_rx has_tx rxs txs =
        Except.error DecodeError.channelError) ∧
    (∀ e, decode opt samplerate has_rx has_tx rxs txs = Except.error e →
      ∀ outs, decode opt samplerate has_rx has_tx rxs txs ≠ Except.ok outs) := by
  refine ⟨?_, ?_, ?_⟩
  · intro h
    subst h
    rfl
  · intro h1 h2 h3
    subst h2
    subst h3
    simp [decode, h1]
  · intro e he outs hok
    rw [he] at hok
    exact Except.noConfusion hok

/-- Witness for C9: no sample rate set. -/
theorem claim_c9_witness :
    (Option.none : Option ℚ) = Option.none ∧
    decode sampleOpt Option.none true false [] [] =
      Except.error DecodeError.samplerateError :=
  ⟨rfl, (claim_c9 sampleOpt Option.none true false [] []).1 rfl⟩

end UART